import Mathlib

/-!
Verification of the lmux core (multiplexed terminal logger).

Shallow embedding of the Rust sources `src/lib/src/{lib,group,hash_tree,framebuffer}.rs`.
Machine integers (`usize`) are modelled as `Nat`; `isize` deltas as `Int`; saturating
arithmetic is written out explicitly (`Nat` subtraction is truncating, matching
`saturating_sub`); fallible operations return `Option`.  Wall-clock time
(`SystemTime`) is modelled as an opaque `Nat` supplied by the caller, and the
`f32` progress fraction as `Option Rat` (its value is never inspected by the
code under verification).  The `AutoCollapse` trait object holds, in the
repository, exactly the three closures from `group.rs`; it is embedded as the
closed inductive of those three policies together with its `filter` evaluation
function transcribing each closure body.
-/

namespace Lmux

-- ======================
-- === group.rs types ===
-- ======================

/-- `group::StatusTag` from `group.rs`. -/
inductive StatusTag where
  | success
  | error
deriving DecidableEq, Repr, Inhabited

/-- `group::Status` from `group.rs`: `{ progress: Option<f32>, finished: bool, tag }`. -/
structure Status where
  progress : Option Rat
  finished : Bool
  tag : StatusTag
deriving DecidableEq, Repr, Inhabited

/-- `Status::ok()`. -/
def Status.ok : Status := { progress := none, finished := false, tag := .success }

/-- `Status::error()`. -/
def Status.err : Status := { progress := none, finished := false, tag := .error }

/-- `Status::finished()`: builder step setting the `finished` flag. -/
def Status.setFinished (s : Status) : Status := { s with finished := true }

/-- `group::Log`: `{ content: String, status: Status }`. -/
structure Log where
  content : String
  status : Status
deriving DecidableEq, Repr, Inhabited

/-- `group::Line`: `{ log, timestamp: LineId, time: SystemTime }`. -/
structure Line where
  log : Log
  timestamp : Nat
  time : Nat
deriving DecidableEq, Repr, Inhabited

/-- `group::State` from `group.rs`. -/
structure State where
  id : Nat
  header : String
  footer : String
  lines : List Line
  collapsed : Option Bool
  selected : Bool
  scroll : Option Nat
deriving DecidableEq, Repr, Inhabited

/-- `State::new(id)`. -/
def State.new (id : Nat) : State :=
  { id := id, header := "", footer := "", lines := [], collapsed := none,
    selected := false, scroll := none }

/-- The `AutoCollapse` strategies defined in `group.rs` (the field is an
`Arc<dyn Fn(LineRange<&State>) -> bool>`; the repository constructs exactly
these three closures, embedded here as a closed inductive). -/
inductive AutoCollapse where
  | collapseOnSuccess
  | expandOnError
  | expandSelected
deriving DecidableEq, Repr, Inhabited

/-- `group::Group`: `{ state, auto_collapse }`; `Default` for `AutoCollapse` is
`expand_on_error`. -/
structure Group where
  state : State
  auto_collapse : AutoCollapse
deriving DecidableEq, Repr, Inhabited

/-- `Group::new(id)`. -/
def Group.new (id : Nat) : Group :=
  { state := State.new id, auto_collapse := .expandOnError }

-- =================
-- === LineRange ===
-- =================

/-- `LineRange<T>` from `lib.rs`: data plus the global time cursor
(`next_line : Option<LineId>`, `none` = live view). -/
structure LineRange (T : Type) where
  data : T
  next_line : Option Nat

/-- `LineRange<&State>::view_lines` from `group.rs`: with cursor `some v`, the
prefix of `lines` up to (exclusive) the first line whose `timestamp >= v`
(`find ... map_or_else(len, |t| t.0)`); with cursor `none`, all lines. -/
def LineRange.view_lines (r : LineRange State) : List Line :=
  match r.next_line with
  | some v => r.data.lines.take (r.data.lines.findIdx (fun l => v ≤ l.timestamp))
  | none => r.data.lines

/-- Body of the closure built by `AutoCollapse::collapse_on_success`:
`group.lines.last().is_some_and(|l| l.finished && l.tag == Success)`.
Note that it reads `lines`, not `view_lines()`. -/
def AutoCollapse.collapseOnSuccessFilter (r : LineRange State) : Bool :=
  match r.data.lines.getLast? with
  | some l => l.log.status.finished && l.log.status.tag == .success
  | none => false

/-- Body of the closure built by `AutoCollapse::expand_on_error`:
`group.view_lines().last().is_none_or(|l| !(l.finished && l.tag == Error))`. -/
def AutoCollapse.expandOnErrorFilter (r : LineRange State) : Bool :=
  match r.view_lines.getLast? with
  | some l => !(l.log.status.finished && l.log.status.tag == .error)
  | none => true

/-- Body of the closure built by `AutoCollapse::expand_selected`. -/
def AutoCollapse.expandSelectedFilter (r : LineRange State) : Bool :=
  !r.data.selected

/-- Evaluation of the stored `filter` closure. -/
def AutoCollapse.filter : AutoCollapse → LineRange State → Bool
  | .collapseOnSuccess, r => AutoCollapse.collapseOnSuccessFilter r
  | .expandOnError, r => AutoCollapse.expandOnErrorFilter r
  | .expandSelected, r => AutoCollapse.expandSelectedFilter r

/-- `LineRange<&Group>::is_collapsed` from `group.rs`: the explicit override if
set, else the auto-collapse policy verdict on the windowed state. -/
def LineRange.is_collapsed (r : LineRange Group) : Bool :=
  match r.data.state.collapsed with
  | some b => b
  | none => r.data.auto_collapse.filter ⟨r.data.state, r.next_line⟩

-- ==========================================
-- === Association lists (IndexMap / HashMap)
-- ==========================================

/-- Lookup in an insertion-ordered association list (model of `IndexMap::get`
and `HashMap::get`). -/
def lookupA [DecidableEq α] : List (α × β) → α → Option β
  | [], _ => none
  | (k, v) :: rest, key => if k = key then some v else lookupA rest key

/-- Insert-or-replace in an insertion-ordered association list (model of
`IndexMap`/`HashMap` `entry`-based insertion: existing keys keep their
position, new keys are appended). -/
def insertA [DecidableEq α] : List (α × β) → α → β → List (α × β)
  | [], key, val => [(key, val)]
  | (k, v) :: rest, key, val =>
    if k = key then (k, val) :: rest else (k, v) :: insertA rest key val

-- ====================
-- === hash_tree.rs ===
-- ====================

/-- `HashTree<K, V>` from `hash_tree.rs`: optional value at this node plus
insertion-ordered children. -/
inductive HashTree (K V : Type) where
  | node (value : Option V) (children : List (K × HashTree K V))

/-- The `value` field. -/
def HashTree.value : HashTree K V → Option V
  | .node v _ => v

/-- The `children` field. -/
def HashTree.children : HashTree K V → List (K × HashTree K V)
  | .node _ c => c

/-- The `Default` instance: empty node. -/
def HashTree.empty : HashTree K V := .node none []

/-- `HashTree::get`: exact path lookup, no side effect. -/
def HashTree.get [DecidableEq K] : List K → HashTree K V → Option V
  | [], t => t.value
  | k :: ks, t =>
    match lookupA t.children k with
    | none => none
    | some c => HashTree.get ks c

/-- `HashTree::get_or_insert_with`: walks the path creating empty children on
demand (`entry(key).or_default()`), and at the leaf returns the existing value
or runs `f` once to create it.  The Rust closure may mutate surrounding state,
modelled by threading an explicit state `s : σ` through `f`. -/
def HashTree.get_or_insert_with [DecidableEq K] :
    List K → HashTree K V → (σ → V × σ) → σ → V × HashTree K V × σ
  | [], .node val ch, f, s =>
    match val with
    | some x => (x, .node (some x) ch, s)
    | none =>
      let p := f s
      (p.1, .node (some p.1) ch, p.2)
  | k :: ks, .node val ch, f, s =>
    let child := (lookupA ch k).getD HashTree.empty
    let r := HashTree.get_or_insert_with ks child f s
    (r.1, .node val (insertA ch k r.2.1), r.2.2)

-- ======================
-- === framebuffer.rs ===
-- ======================

/-- `framebuffer::Line`: one terminal row slot, `{ changed, content }`. -/
structure FbLine where
  changed : Bool
  content : String
deriving DecidableEq, Repr, Inhabited

/-- `framebuffer::Framebuffer`. -/
structure Framebuffer where
  lines : List FbLine
  line_to_group : List (Nat × Option Nat)
  group_to_lines : List (Nat × (Nat × Nat))
  group_to_group_lines : List (Nat × (Nat × Nat))
deriving DecidableEq, Repr, Inhabited

/-- The `Default` framebuffer. -/
def Framebuffer.empty : Framebuffer := ⟨[], [], [], []⟩

-- ==============
-- === Logger ===
-- ==============

/-- `Logger` from `lib.rs`.  `groups: Groups = LineRange<Vec<Group>>` is split
into the `groups` list and the global time cursor `next_line`.  The `style`
field (a bundle of text-decoration functions never touched by the verified
operations) is omitted. -/
structure Logger where
  groups : List Group
  next_line : Option Nat
  path_to_group_id : HashTree String Nat
  next_line_id : Nat
  frame_buffer : Framebuffer
  debug_lines : List String
  history : List (Nat × StatusTag)

/-- The `Default` logger (fresh shared state). -/
def Logger.init : Logger :=
  { groups := [], next_line := none, path_to_group_id := HashTree.empty,
    next_line_id := 0, frame_buffer := Framebuffer.empty, debug_lines := [],
    history := [] }

/-- `Logger::shift_history` from `lib.rs`:
`new = ((current + shift).max(0) as usize).min(max)` with
`current = next_line.unwrap_or(max)`, `max = history.len()`; stores `none`
when the clamped cursor equals `max` (live mode). -/
def Logger.shift_history (L : Logger) (shift : Int) : Logger :=
  let mx := L.history.length
  let current := L.next_line.getD mx
  let nw := min (((current : Int) + shift).toNat) mx
  { L with next_line := if nw = mx then none else some nw }

-- ============================================
-- === Positional list access (Vec indexing) ===
-- ============================================

/-- `Vec` indexing, `v.get(i)` as an `Option`. -/
def getAt : List α → Nat → Option α
  | [], _ => none
  | a :: _, 0 => some a
  | _ :: l, n + 1 => getAt l n

/-- In-place update of the element at index `i` (`Vec`'s `v[i] = ...` through a
function); indices past the end leave the list unchanged. -/
def modifyAt : List α → Nat → (α → α) → List α
  | [], _, _ => []
  | a :: l, 0, f => f a :: l
  | a :: l, n + 1, f => a :: modifyAt l n f

-- ================================
-- === framebuffer.rs operations ===
-- ================================

/-- `Framebuffer::set_line`: records the row-to-group index, extends the
group's row span and group-relative line span, resizes the row storage on
demand (`resize` appends default rows), and marks the row dirty exactly when
its stored content differs from the new content. -/
def Framebuffer.set_line (fb : Framebuffer) (line_ix : Nat) (group : Option Nat)
    (group_line_ix : Option Nat) (content : String) : Framebuffer :=
  let ltg := insertA fb.line_to_group line_ix group
  let gtl :=
    match group with
    | none => fb.group_to_lines
    | some gix =>
      insertA fb.group_to_lines gix
        (match lookupA fb.group_to_lines gix with
         | some r => (r.1, line_ix)
         | none => (line_ix, line_ix))
  let gtgl :=
    match group, group_line_ix with
    | some gix, some gli =>
      insertA fb.group_to_group_lines gix
        (match lookupA fb.group_to_group_lines gix with
         | some r => (r.1, gli)
         | none => (gli, gli))
    | _, _ => fb.group_to_group_lines
  let lines1 :=
    if fb.lines.length ≤ line_ix
    then fb.lines ++ List.replicate (line_ix + 1 - fb.lines.length) { changed := false, content := "" }
    else fb.lines
  let lines2 := modifyAt lines1 line_ix (fun l =>
    if l.content ≠ content then { changed := true, content := content } else l)
  { lines := lines2, line_to_group := ltg, group_to_lines := gtl, group_to_group_lines := gtgl }

/-- `Framebuffer::on_frame` (called by `Writer::new`): clears the three index
maps, does NOT clear row content. -/
def Framebuffer.on_frame (fb : Framebuffer) : Framebuffer :=
  { fb with group_to_lines := [], group_to_group_lines := [], line_to_group := [] }

/-- The draw step at the end of `on_frame` in `lib.rs`: every dirty row is
emitted and its flag cleared, so afterwards every row's `changed` flag is
`false`. -/
def Framebuffer.clear_flags (fb : Framebuffer) : Framebuffer :=
  { fb with lines := fb.lines.map (fun l => { l with changed := false }) }

/-- `framebuffer::Writer`: a framebuffer plus the logical row cursor. -/
structure Writer where
  framebuffer : Framebuffer
  line : Nat

/-- `Writer::new`: runs `on_frame` and resets the cursor to 0. -/
def Writer.new (fb : Framebuffer) : Writer :=
  { framebuffer := fb.on_frame, line := 0 }

/-- `Writer::line`: writes one logical line at the cursor via `set_line` and
always increments the cursor. -/
def Writer.write_one (w : Writer) (group : Option Nat) (group_line : Option Nat)
    (content : String) : Writer :=
  { framebuffer := w.framebuffer.set_line w.line group group_line content,
    line := w.line + 1 }

/-- One frame's worth of logical lines, fed to the writer in order. -/
def Writer.write_frame (w : Writer) : List (Option Nat × Option Nat × String) → Writer
  | [] => w
  | (g, gl, c) :: rest => (w.write_one g gl c).write_frame rest

-- =====================
-- === GroupSelector ===
-- =====================

/-- `GroupSelector` from `lib.rs`: a group is addressed by id or by path. -/
inductive Selector where
  | byId (id : Nat)
  | byPath (path : List String)

/-- `GroupSelector::group_id`: by-id fails iff the index is out of bounds,
by-path fails iff the path is absent from the hash tree. -/
def Selector.resolve : Selector → Logger → Option Nat
  | .byId i, L => if i < L.groups.length then some i else none
  | .byPath p, L => HashTree.get p L.path_to_group_id

-- ============================
-- === Logger: create_group ===
-- ============================

/-- `Logger::create_group`: idempotent get-or-create through the hash tree;
on first creation, allocates the next GroupId (`groups.len()`), sets the
header to the path joined by `::` and appends the group. -/
def Logger.create_group (L : Logger) (path : List String) : Nat × Logger :=
  let f : List Group → Nat × List Group := fun gs =>
    let gid := gs.length
    let g := Group.new gid
    (gid, gs ++ [{ g with state := { g.state with header := String.intercalate "::" path } }])
  let r := HashTree.get_or_insert_with path L.path_to_group_id f L.groups
  (r.1, { L with path_to_group_id := r.2.1, groups := r.2.2 })

-- =========================
-- === Logger: push_line ===
-- =========================

/-- `Logger::push_line`: resolves the selector; on failure returns the error
(the `?` operator returns before any mutation).  On success assigns the next
LineId as timestamp, appends `(group_id, status.tag)` to the history, appends
the line to the group, and advances the LineId counter. -/
def Logger.push_line (L : Logger) (sel : Selector) (lg : Log) (time : Nat) : Option Logger :=
  match sel.resolve L with
  | none => none
  | some gid =>
    let timestamp := L.next_line_id
    some { L with
      next_line_id := L.next_line_id + 1,
      history := L.history ++ [(gid, lg.status.tag)],
      groups := modifyAt L.groups gid (fun g =>
        { g with state := { g.state with
            lines := g.state.lines ++ [{ log := lg, timestamp := timestamp, time := time }] } }) }

/-- `Logger::group_mut`-based field setters (`modify_group_header` etc.):
resolve, then apply `f` to the group. -/
def Logger.with_group (L : Logger) (sel : Selector) (f : Group → Group) : Option Logger :=
  (sel.resolve L).map (fun gid => { L with groups := modifyAt L.groups gid f })

-- ======================
-- === Logger: scroll ===
-- ======================

/-- The group's group-relative line span recorded by the last frame
(`frame_buffer.group_to_group_lines.get(&group_id)`). -/
def Logger.group_window (L : Logger) (gid : Nat) : Option (Nat × Nat) :=
  lookupA L.frame_buffer.group_to_group_lines gid

/-- `line_count` in `Logger::scroll`: the visible window height recovered from
the span, `t.1 - t.0 + 1`, or 0 if the group was not drawn. -/
def Logger.window_height (L : Logger) (gid : Nat) : Nat :=
  match L.group_window gid with
  | some r => r.2 - r.1 + 1
  | none => 0

/-- `max` in `Logger::scroll`: `lines.len().saturating_sub(line_count)`. -/
def Logger.max_scroll (L : Logger) (gid : Nat) : Nat :=
  ((getAt L.groups gid).getD default).state.lines.length - L.window_height gid

/-- The fallback scroll position when no override is set:
`*line_range.unwrap_or_default().0`. -/
def Logger.scroll_anchor (L : Logger) (gid : Nat) : Nat :=
  ((L.group_window gid).getD (0, 0)).1

/-- The group's stored scroll override. -/
def Logger.scroll_of (L : Logger) (gid : Nat) : Option Nat :=
  ((getAt L.groups gid).getD default).state.scroll

/-- `Logger::scroll` from `lib.rs`: resolves the selector; positive offsets
saturating-add and clamp to `max`, non-positive offsets saturating-subtract;
the result is stored as an override unless it equals `max`, which resets to
tail-follow (`none`). -/
def Logger.scroll (L : Logger) (sel : Selector) (offset : Int) : Option Logger :=
  match sel.resolve L with
  | none => none
  | some gid =>
    let mx := L.max_scroll gid
    let current_scroll := (L.scroll_of gid).getD (L.scroll_anchor gid)
    let new_scroll :=
      if 0 < offset
      then min (current_scroll + offset.toNat) mx
      else current_scroll - (-offset).toNat
    some { L with groups := modifyAt L.groups gid (fun g =>
      { g with state := { g.state with
          scroll := if new_scroll ≠ mx then some new_scroll else none } }) }

/-- The `new_scroll` local of `Logger::scroll`: saturating add clamped to
`max` for positive offsets, saturating subtract otherwise. -/
def Logger.scroll_new_val (L : Logger) (gid : Nat) (off : Int) : Nat :=
  if 0 < off
  then min (((L.scroll_of gid).getD (L.scroll_anchor gid)) + off.toNat) (L.max_scroll gid)
  else ((L.scroll_of gid).getD (L.scroll_anchor gid)) - (-off).toNat

/-- The override stored by `Logger::scroll`:
`(new_scroll != max).then_some(new_scroll)`. -/
def Logger.scroll_stored (L : Logger) (gid : Nat) (off : Int) : Option Nat :=
  if L.scroll_new_val gid off ≠ L.max_scroll gid
  then some (L.scroll_new_val gid off)
  else none

/-- A sequence of `scroll` calls on one selector (failed calls leave the
state unchanged, as the `&mut self` method returns before mutating). -/
def Logger.scroll_many (L : Logger) (sel : Selector) : List Int → Logger
  | [] => L
  | off :: offs => (((L.scroll sel off).getD L).scroll_many sel offs)

-- ===============================
-- === Logger: shift_selection ===
-- ===============================

/-- The `selected` flag of group `i`. -/
def Logger.selected_at (L : Logger) (i : Nat) : Bool :=
  ((getAt L.groups i).getD default).state.selected

/-- Write the `selected` flag of group `i`. -/
def Logger.set_selected (L : Logger) (i : Nat) (b : Bool) : Logger :=
  { L with groups := modifyAt L.groups i (fun g =>
      { g with state := { g.state with selected := b } }) }

/-- Indices of the non-empty groups (`Groups::nonempty_mut`): groups whose
time-cursor-clipped visible window is non-empty, in display order. -/
def Logger.nonempty_idxs (L : Logger) : List Nat :=
  (List.range L.groups.length).filter (fun i =>
    !(LineRange.view_lines ⟨((getAt L.groups i).getD default).state, L.next_line⟩).isEmpty)

/-- Write a list of `selected` flags back at the given group indices. -/
def Logger.write_flags : Logger → List Nat → List Bool → Logger
  | L, [], _ => L
  | L, _ :: _, [] => L
  | L, i :: is, b :: bs => (L.set_selected i b).write_flags is bs

/-- `Logger::shift_selection` from `lib.rs`.  Over the non-empty groups: if
none is selected, select the first (`shift ≥ 0`) or last (`shift < 0`) one.
Otherwise iterate the groups (reversed when `shift < 0`) swapping each
`selected` flag with a running `prev` flag — shifting the selection bitset by
one position — and finally, if the last flag fell off (`prev_selected`), set
the first iterated group's flag (`groups[0].selected = true`). -/
def Logger.shift_selection (L : Logger) (shift : Int) : Logger :=
  if L.nonempty_idxs.isEmpty then L
  else if L.nonempty_idxs.any (fun i => L.selected_at i) then
    L.write_flags (if shift < 0 then L.nonempty_idxs.reverse else L.nonempty_idxs)
      (((if shift < 0 then L.nonempty_idxs.reverse else L.nonempty_idxs).map
          (fun i => L.selected_at i)).getLastD false
        :: ((if shift < 0 then L.nonempty_idxs.reverse else L.nonempty_idxs).map
          (fun i => L.selected_at i)).dropLast)
  else
    L.set_selected
      (if 0 ≤ shift then L.nonempty_idxs.headD 0 else L.nonempty_idxs.getLastD 0) true

-- ========================================
-- === Operations (the mutation surface) ===
-- ========================================

/-- The serialized mutation operations exposed by `Logger` in `lib.rs`. -/
inductive Op where
  | createGroup (path : List String)
  | pushLine (sel : Selector) (lg : Log) (time : Nat)
  | shiftSelection (s : Int)
  | shiftHistory (s : Int)
  | scroll (sel : Selector) (off : Int)
  | setHeader (sel : Selector) (text : String)
  | setFooter (sel : Selector) (text : String)
  | setCollapsed (sel : Selector) (b : Option Bool)

/-- One serialized `Logger` call; fallible calls leave the state unchanged on
error (`?` returns before mutating). -/
def Logger.step (L : Logger) : Op → Logger
  | .createGroup p => (L.create_group p).2
  | .pushLine sel lg t => (L.push_line sel lg t).getD L
  | .shiftSelection s => L.shift_selection s
  | .shiftHistory s => L.shift_history s
  | .scroll sel off => (L.scroll sel off).getD L
  | .setHeader sel s =>
    (L.with_group sel (fun g => { g with state := { g.state with header := s } })).getD L
  | .setFooter sel s =>
    (L.with_group sel (fun g => { g with state := { g.state with footer := s } })).getD L
  | .setCollapsed sel b =>
    (L.with_group sel (fun g => { g with state := { g.state with collapsed := b } })).getD L

/-- A sequence of serialized calls. -/
def Logger.run (L : Logger) : List Op → Logger
  | [] => L
  | op :: ops => (L.step op).run ops

/-- The LineIds assigned to the successful `push_line` calls of a sequence, in
call order. -/
def pushed_ids (L : Logger) : List Op → List Nat
  | [] => []
  | op :: ops =>
    match op with
    | .pushLine sel lg t =>
      match L.push_line sel lg t with
      | some _ => L.next_line_id :: pushed_ids (L.step op) ops
      | none => pushed_ids (L.step op) ops
    | _ => pushed_ids (L.step op) ops

/-- The range-and-injectivity invariant of the path index: every stored
GroupId is in bounds and no two paths store the same GroupId.  It holds for
the fresh logger and is preserved by `create_group` (ids are allocated as
`groups.len()` and the group list grows with them). -/
def Logger.tree_ok (L : Logger) : Prop :=
  (∀ p v, HashTree.get p L.path_to_group_id = some v → v < L.groups.length)
  ∧ (∀ p q v, HashTree.get p L.path_to_group_id = some v →
      HashTree.get q L.path_to_group_id = some v → p = q)

-- ===========================
-- === Concrete test states ===
-- ===========================

/-- Witness state for C9: two lines with timestamps 0 and 1. -/
def c9State : State :=
  { State.new 0 with lines :=
      [ { log := { content := "a", status := Status.ok }, timestamp := 0, time := 0 },
        { log := { content := "b", status := Status.ok }, timestamp := 1, time := 1 } ] }

/-- Group used by the C2 counterexample and witness: fresh group, no lines,
no override, default (expand-on-error) policy. -/
def c2Group : Group := Group.new 0

/-- State used by the C3 counterexample: line 0 is finished+Success with
timestamp 0, line 1 is unfinished with timestamp 1. -/
def c3State : State :=
  { State.new 0 with lines :=
      [ { log := { content := "a",
                   status := { progress := none, finished := true, tag := .success } },
          timestamp := 0, time := 0 },
        { log := { content := "b", status := Status.ok }, timestamp := 1, time := 1 } ] }

/-- Witness logger for C5: one group with 5 lines; the last frame drew its
group-relative lines 2..4 (window height 3), so the maximum scroll offset is
2 and the tail-follow anchor is 2. -/
def c5L : Logger :=
  { Logger.init with
    groups := [ { Group.new 0 with state := { State.new 0 with lines :=
      [ { log := { content := "l0", status := Status.ok }, timestamp := 0, time := 0 },
        { log := { content := "l1", status := Status.ok }, timestamp := 1, time := 0 },
        { log := { content := "l2", status := Status.ok }, timestamp := 2, time := 0 },
        { log := { content := "l3", status := Status.ok }, timestamp := 3, time := 0 },
        { log := { content := "l4", status := Status.ok }, timestamp := 4, time := 0 } ] } } ],
    frame_buffer := { Framebuffer.empty with group_to_group_lines := [(0, (2, 4))] },
    next_line_id := 5,
    history := [(0, .success), (0, .success), (0, .success), (0, .success), (0, .success)] }

/-- Logger used by the C1 counterexample and witness: two non-empty groups,
only the last one selected. -/
def c1Logger : Logger :=
  { Logger.init with
    groups :=
      [ { Group.new 0 with state := { State.new 0 with lines :=
          [ { log := { content := "x", status := Status.ok }, timestamp := 0, time := 0 } ] } },
        { Group.new 1 with state := { State.new 1 with selected := true, lines :=
          [ { log := { content := "y", status := Status.ok }, timestamp := 1, time := 0 } ] } } ],
    next_line_id := 2,
    history := [(0, .success), (1, .success)] }

/-- Frame used by the C8 witness: one logical line. -/
def c8frame : List (Option Nat × Option Nat × String) := [(some 0, some 0, "hi")]

/-- The framebuffer after the C8 round trip on the empty framebuffer. -/
def c8fb : Framebuffer :=
  ((Writer.new
      ((((Writer.new Framebuffer.empty).write_frame c8frame).framebuffer).clear_flags)).write_frame
        c8frame).framebuffer

/-- Log pushed by the C10 witness. -/
def c10log : Log := { content := "w", status := Status.ok }

/-- Result state of the C10 witness push. -/
def c10L2 : Logger := (c5L.push_line (Selector.byId 0) c10log 3).getD c5L

-- ==========================================================
-- === Helper lemmas: clipped window over sorted timestamps
-- ==========================================================

theorem take_findIdx_eq_filter (c : Nat) :
    ∀ ls : List Line, List.Pairwise (fun a b => a.timestamp < b.timestamp) ls →
      ls.take (ls.findIdx (fun l => c ≤ l.timestamp)) = ls.filter (fun l => l.timestamp < c)
  | [], _ => rfl
  | x :: xs, h => by
    rcases List.pairwise_cons.mp h with ⟨hx, hxs⟩
    by_cases hc : c ≤ x.timestamp
    · have h0 : (x :: xs).findIdx (fun l => decide (c ≤ l.timestamp)) = 0 := by
        simp [List.findIdx_cons, hc]
      have hnil : (x :: xs).filter (fun l => decide (l.timestamp < c)) = [] := by
        refine List.filter_eq_nil_iff.mpr ?_
        intro a ha
        rcases List.mem_cons.mp ha with rfl | ha
        · simpa using Nat.not_lt.mpr hc
        · have := hx a ha
          simp only [decide_eq_true_eq]
          omega
      rw [h0, hnil]
      rfl
    · have h1 : (x :: xs).findIdx (fun l => decide (c ≤ l.timestamp)) =
          xs.findIdx (fun l => decide (c ≤ l.timestamp)) + 1 := by
        simp [List.findIdx_cons, hc]
      have h2 : (x :: xs).filter (fun l => decide (l.timestamp < c)) =
          x :: xs.filter (fun l => decide (l.timestamp < c)) := by
        simp [List.filter_cons, Nat.lt_of_not_le hc]
      rw [h1, h2, List.take_succ_cons]
      exact congrArg (x :: ·) (take_findIdx_eq_filter c xs hxs)

-- ================
-- === Theorems ===
-- ================

/-- C4: `shift_history` moves the time cursor (taken as `history.len()` when
live) by the shift, clamped to `[0, history.len()]`; the result is stored as
`some new` unless `new = history.len()`, in which case the cursor becomes
`none` (live).  The cursor after any call is never outside the interval and is
never `some (history.len())`. -/
theorem shift_history_spec (L : Logger) (shift : Int) :
    ((L.shift_history shift).history = L.history)
    ∧ ((L.shift_history shift).next_line = none ↔
        min (max (((L.next_line.getD L.history.length) : Int) + shift) 0) (L.history.length : Int)
          = (L.history.length : Int))
    ∧ (∀ v : Nat, (L.shift_history shift).next_line = some v ↔
        ((v : Int) = min (max (((L.next_line.getD L.history.length) : Int) + shift) 0)
            (L.history.length : Int) ∧ v ≠ L.history.length))
    ∧ (∀ v : Nat, (L.shift_history shift).next_line = some v → v < L.history.length) := by
  have h1 : ∀ (c mx : Nat) (s : Int),
      min (((c : Int) + s).toNat) mx = (min (max ((c : Int) + s) 0) (mx : Int)).toNat := by
    intro c mx s
    omega
  have hnl : (L.shift_history shift).next_line =
      if min (((L.next_line.getD L.history.length : Int) + shift).toNat) L.history.length
          = L.history.length
      then none
      else some (min (((L.next_line.getD L.history.length : Int) + shift).toNat)
        L.history.length) := rfl
  rw [h1] at hnl
  refine ⟨rfl, ?_, ?_, ?_⟩
  · rw [hnl]
    split_ifs with h
    · simp only [true_iff]
      omega
    · simp only [reduceCtorEq, false_iff]
      omega
  · intro v
    rw [hnl]
    split_ifs with h
    · simp only [reduceCtorEq, false_iff]
      intro hv
      omega
    · simp only [Option.some.injEq]
      constructor
      · intro hv
        omega
      · intro hv
        omega
  · intro v
    rw [hnl]
    split_ifs with h
    · intro hv
      exact absurd hv (by simp)
    · intro hv
      have hv2 := Option.some.inj hv
      omega

/-- C9: for a group whose lines carry strictly increasing timestamps, the view
with cursor `some c` is exactly the lines with `timestamp < c` (and it is a
prefix of the lines, being a `take`); with cursor `none` it is all lines. -/
theorem view_lines_spec (st : State) (c : Nat)
    (hsorted : List.Pairwise (fun a b => a.timestamp < b.timestamp) st.lines) :
    LineRange.view_lines ⟨st, some c⟩ = st.lines.filter (fun l => l.timestamp < c)
    ∧ LineRange.view_lines ⟨st, none⟩ = st.lines
    ∧ LineRange.view_lines ⟨st, some c⟩ =
        st.lines.take (st.lines.findIdx (fun l => c ≤ l.timestamp)) := by
  refine ⟨?_, rfl, rfl⟩
  exact take_findIdx_eq_filter c st.lines hsorted

/-- Witness for C9 at a concrete two-line state with cursor 1. -/
theorem view_lines_spec_witness :
    LineRange.view_lines ⟨c9State, some 1⟩ = c9State.lines.filter (fun l => l.timestamp < 1)
    ∧ LineRange.view_lines ⟨c9State, none⟩ = c9State.lines :=
  ⟨(view_lines_spec c9State 1 (by decide)).1, (view_lines_spec c9State 1 (by decide)).2.1⟩

/-- C2 (amended): for a group with no explicit override and the default
expand-on-error policy, the effective collapsed state is `true` iff the last
line of the visible window is NOT both finished and `Error`; an EMPTY visible
window yields `collapsed = true` (collapsed), not expanded. -/
theorem expand_on_error_amended (g : Group) (cursor : Option Nat)
    (hover : g.state.collapsed = none) (hpol : g.auto_collapse = .expandOnError) :
    (LineRange.is_collapsed ⟨g, cursor⟩ = true ↔
      ∀ l, (LineRange.view_lines ⟨g.state, cursor⟩).getLast? = some l →
        ¬(l.log.status.finished = true ∧ l.log.status.tag = .error))
    ∧ (LineRange.view_lines ⟨g.state, cursor⟩ = [] →
        LineRange.is_collapsed ⟨g, cursor⟩ = true) := by
  have hic : LineRange.is_collapsed ⟨g, cursor⟩ =
      AutoCollapse.expandOnErrorFilter ⟨g.state, cursor⟩ := by
    simp [LineRange.is_collapsed, hover, hpol, AutoCollapse.filter]
  constructor
  · rw [hic]
    unfold AutoCollapse.expandOnErrorFilter
    cases hl : (LineRange.view_lines ⟨g.state, cursor⟩).getLast? with
    | none => simp
    | some l =>
      simp only [Option.some.injEq]
      constructor
      · intro hb l2 hl2
        subst hl2
        intro hcontra
        rw [hcontra.1, hcontra.2] at hb
        simp at hb
      · intro hall
        have := hall l rfl
        cases hf : l.log.status.finished <;> cases ht : l.log.status.tag <;> simp_all
  · intro hempty
    rw [hic]
    unfold AutoCollapse.expandOnErrorFilter
    rw [hempty]
    rfl

/-- C2 counterexample: a group whose visible window is empty has effective
collapsed state `true` (collapsed), where the claim asserts an empty visible
window is treated as not collapsed (expanded). -/
theorem expand_on_error_empty_counterexample :
    LineRange.view_lines ⟨c2Group.state, none⟩ = []
    ∧ c2Group.state.collapsed = none
    ∧ c2Group.auto_collapse = .expandOnError
    ∧ LineRange.is_collapsed ⟨c2Group, none⟩ = true :=
  ⟨rfl, rfl, rfl, rfl⟩

/-- C2 witness: amended theorem applied at the fresh group in live mode; its
empty visible window makes it collapsed. -/
theorem expand_on_error_amended_witness :
    LineRange.is_collapsed ⟨c2Group, none⟩ = true :=
  (expand_on_error_amended c2Group none rfl rfl).2 rfl

/-- C3 (amended): the collapse-on-success verdict ignores the time cursor: for
every group state and every cursor it is computed over the FULL line list
(equivalently, the live window), returning collapsed iff the group's last line
overall is both finished and `Success`. -/
theorem collapse_on_success_ignores_cursor (st : State) (cursor : Option Nat) :
    AutoCollapse.filter .collapseOnSuccess ⟨st, cursor⟩ =
      ((LineRange.view_lines ⟨st, none⟩).getLast?.elim false
        (fun l => l.log.status.finished && l.log.status.tag == .success)) := by
  unfold AutoCollapse.filter AutoCollapse.collapseOnSuccessFilter LineRange.view_lines
  cases h : st.lines.getLast? <;> simp [h]

/-- C3 counterexample: under cursor `some 1` the last VISIBLE line is finished
and `Success`, yet the collapse-on-success policy returns `false` (it looks at
the unclipped last line, which is unfinished). -/
theorem collapse_on_success_counterexample :
    ((LineRange.view_lines ⟨c3State, some 1⟩).getLast?.elim false
        (fun l => l.log.status.finished && l.log.status.tag == .success)) = true
    ∧ AutoCollapse.filter .collapseOnSuccess ⟨c3State, some 1⟩ = false := by
  exact ⟨rfl, rfl⟩

-- =================================================
-- === Positional access lemmas (getAt, modifyAt) ===
-- =================================================

theorem modifyAt_length : ∀ (l : List α) (i : Nat) (f : α → α),
    (modifyAt l i f).length = l.length
  | [], _, _ => rfl
  | _ :: _, 0, _ => rfl
  | a :: l, n + 1, f => by
    simp only [modifyAt, List.length_cons, modifyAt_length l n f]

theorem getAt_modifyAt_self : ∀ (l : List α) (i : Nat) (f : α → α),
    getAt (modifyAt l i f) i = (getAt l i).map f
  | [], _, _ => rfl
  | _ :: _, 0, _ => rfl
  | _ :: l, n + 1, f => getAt_modifyAt_self l n f

theorem getAt_modifyAt_other : ∀ (l : List α) (i j : Nat) (f : α → α), i ≠ j →
    getAt (modifyAt l i f) j = getAt l j
  | [], _, _, _, _ => rfl
  | _ :: _, 0, 0, _, h => absurd rfl h
  | _ :: _, 0, _ + 1, _, _ => rfl
  | _ :: _, _ + 1, 0, _, _ => rfl
  | _ :: l, i + 1, j + 1, f, h =>
    getAt_modifyAt_other l i j f (fun e => h (congrArg Nat.succ e))

theorem modifyAt_fixpoint : ∀ (l : List α) (i : Nat) (f : α → α) (a : α),
    getAt l i = some a → f a = a → modifyAt l i f = l
  | [], _, _, _, h, _ => by cases h
  | b :: l, 0, f, a, h, hf => by
    have hb : b = a := Option.some.inj h
    subst hb
    simp only [modifyAt, hf]
  | b :: l, n + 1, f, a, h, hf =>
    congrArg (b :: ·) (modifyAt_fixpoint l n f a h hf)

theorem getAt_append_left : ∀ (l r : List α) (i : Nat), i < l.length →
    getAt (l ++ r) i = getAt l i
  | [], _, _, h => absurd h (by simp)
  | _ :: _, _, 0, _ => rfl
  | _ :: l, r, i + 1, h => getAt_append_left l r i (Nat.lt_of_succ_lt_succ h)

theorem getAt_append_right : ∀ (l r : List α) (i : Nat), l.length ≤ i →
    getAt (l ++ r) i = getAt r (i - l.length)
  | [], _, _, _ => by simp
  | a :: l, r, 0, h => absurd h (by simp)
  | a :: l, r, i + 1, h => by
    simpa using getAt_append_right l r i (Nat.le_of_succ_le_succ h)

theorem getAt_replicate (d : α) : ∀ (n i : Nat), i < n →
    getAt (List.replicate n d) i = some d
  | 0, _, h => absurd h (by omega)
  | n + 1, 0, _ => rfl
  | n + 1, i + 1, h => getAt_replicate d n i (Nat.lt_of_succ_lt_succ h)

theorem getAt_some_lt : ∀ (l : List α) (i : Nat) (a : α), getAt l i = some a → i < l.length
  | [], _, _, h => by cases h
  | _ :: _, 0, _, _ => by simp
  | _ :: l, i + 1, a, h =>
    Nat.succ_lt_succ (getAt_some_lt l i a h)

theorem getAt_lt_some : ∀ (l : List α) (i : Nat), i < l.length → ∃ a, getAt l i = some a
  | [], _, h => absurd h (by simp)
  | a :: _, 0, _ => ⟨a, rfl⟩
  | _ :: l, i + 1, h => getAt_lt_some l i (Nat.lt_of_succ_lt_succ h)

theorem getAt_map (f : α → β) : ∀ (l : List α) (i : Nat),
    getAt (l.map f) i = (getAt l i).map f
  | [], _ => rfl
  | _ :: _, 0 => rfl
  | _ :: l, i + 1 => getAt_map f l i

theorem getAt_mem : ∀ (l : List α) (i : Nat) (a : α), getAt l i = some a → a ∈ l
  | [], _, _, h => by cases h
  | b :: l, 0, a, h => by
    rw [← Option.some.inj h]
    exact List.mem_cons_self b l
  | b :: l, i + 1, a, h => List.mem_cons_of_mem b (getAt_mem l i a h)

-- ================================
-- === set_line / Writer lemmas ===
-- ================================

theorem set_line_lines (fb : Framebuffer) (ix : Nat) (g gl : Option Nat) (c : String) :
    (fb.set_line ix g gl c).lines =
      modifyAt
        (if fb.lines.length ≤ ix
         then fb.lines ++
           List.replicate (ix + 1 - fb.lines.length) { changed := false, content := "" }
         else fb.lines)
        ix (fun l => if l.content ≠ c then { changed := true, content := c } else l) := rfl

theorem set_line_length (fb : Framebuffer) (ix : Nat) (g gl : Option Nat) (c : String) :
    (fb.set_line ix g gl c).lines.length = max (ix + 1) fb.lines.length := by
  rw [set_line_lines, modifyAt_length]
  split_ifs with h
  · simp only [List.length_append, List.length_replicate]
    omega
  · omega

theorem set_line_getAt_other (fb : Framebuffer) (ix : Nat) (g gl : Option Nat) (c : String)
    (j : Nat) (hj : j < fb.lines.length) (hne : j ≠ ix) :
    getAt (fb.set_line ix g gl c).lines j = getAt fb.lines j := by
  rw [set_line_lines, getAt_modifyAt_other _ _ _ _ (Ne.symm hne)]
  split_ifs with h
  · exact getAt_append_left _ _ _ hj
  · rfl

theorem set_line_content_self (fb : Framebuffer) (ix : Nat) (g gl : Option Nat) (c : String) :
    (getAt (fb.set_line ix g gl c).lines ix).map (fun l => l.content) = some c := by
  rw [set_line_lines, getAt_modifyAt_self]
  have hsome : ∃ l0 : FbLine,
      getAt
        (if fb.lines.length ≤ ix
         then fb.lines ++
           List.replicate (ix + 1 - fb.lines.length) { changed := false, content := "" }
         else fb.lines) ix = some l0 := by
    split_ifs with h
    · refine ⟨{ changed := false, content := "" }, ?_⟩
      rw [getAt_append_right _ _ _ h]
      exact getAt_replicate _ _ _ (by omega)
    · exact getAt_lt_some _ _ (by omega)
  obtain ⟨l0, hl0⟩ := hsome
  rw [hl0]
  by_cases hc : l0.content = c
  · simp [hc]
  · simp [hc]

theorem set_line_fixpoint (fb : Framebuffer) (ix : Nat) (g gl : Option Nat) (c : String)
    (h : (getAt fb.lines ix).map (fun l => l.content) = some c) :
    (fb.set_line ix g gl c).lines = fb.lines := by
  obtain ⟨l0, hl0⟩ : ∃ l0, getAt fb.lines ix = some l0 := by
    cases hg : getAt fb.lines ix with
    | none => rw [hg] at h; cases h
    | some l0 => exact ⟨l0, rfl⟩
  have hcontent : l0.content = c := by
    rw [hl0] at h
    exact Option.some.inj h
  have hlt : ix < fb.lines.length := getAt_some_lt _ _ _ hl0
  rw [set_line_lines]
  have hcond : ¬ fb.lines.length ≤ ix := by omega
  rw [if_neg hcond]
  exact modifyAt_fixpoint _ _ _ l0 hl0 (by simp [hcontent])

theorem write_frame_line_adv : ∀ (frame : List (Option Nat × Option Nat × String)) (w : Writer),
    w.line ≤ w.framebuffer.lines.length →
    (w.write_frame frame).line = w.line + frame.length
    ∧ (w.write_frame frame).line ≤ (w.write_frame frame).framebuffer.lines.length
  | [], w, hw => ⟨rfl, hw⟩
  | (g, gl, c) :: rest, w, hw => by
    have hlen : (w.write_one g gl c).framebuffer.lines.length
        = max (w.line + 1) w.framebuffer.lines.length := set_line_length _ _ _ _ _
    have hw2 : (w.write_one g gl c).line ≤ (w.write_one g gl c).framebuffer.lines.length := by
      show w.line + 1 ≤ _
      omega
    have ih := write_frame_line_adv rest (w.write_one g gl c) hw2
    refine ⟨?_, ih.2⟩
    show ((w.write_one g gl c).write_frame rest).line = w.line + (rest.length + 1)
    rw [ih.1]
    show w.line + 1 + rest.length = w.line + (rest.length + 1)
    omega

theorem write_frame_getAt_below :
    ∀ (frame : List (Option Nat × Option Nat × String)) (w : Writer) (j : Nat),
      w.line ≤ w.framebuffer.lines.length → j < w.line →
      getAt (w.write_frame frame).framebuffer.lines j = getAt w.framebuffer.lines j
  | [], _, _, _, _ => rfl
  | (g, gl, c) :: rest, w, j, hw, hj => by
    have hlen : (w.write_one g gl c).framebuffer.lines.length
        = max (w.line + 1) w.framebuffer.lines.length := set_line_length _ _ _ _ _
    have hw2 : (w.write_one g gl c).line ≤ (w.write_one g gl c).framebuffer.lines.length := by
      show w.line + 1 ≤ _
      omega
    have step1 : getAt (w.write_one g gl c).framebuffer.lines j
        = getAt w.framebuffer.lines j :=
      set_line_getAt_other _ _ _ _ _ _ (by omega) (by omega)
    have ih := write_frame_getAt_below rest (w.write_one g gl c) j hw2 (by
      show j < w.line + 1
      omega)
    show getAt ((w.write_one g gl c).write_frame rest).framebuffer.lines j = _
    rw [ih, step1]

theorem write_frame_content :
    ∀ (frame : List (Option Nat × Option Nat × String)) (w : Writer),
      w.line ≤ w.framebuffer.lines.length →
      ∀ i, i < frame.length →
        (getAt (w.write_frame frame).framebuffer.lines (w.line + i)).map (fun l => l.content)
          = (getAt frame i).map (fun it => it.2.2)
  | [], _, _, i, hi => absurd hi (by simp)
  | (g, gl, c) :: rest, w, hw, i, hi => by
    have hlen : (w.write_one g gl c).framebuffer.lines.length
        = max (w.line + 1) w.framebuffer.lines.length := set_line_length _ _ _ _ _
    have hw2 : (w.write_one g gl c).line ≤ (w.write_one g gl c).framebuffer.lines.length := by
      show w.line + 1 ≤ _
      omega
    cases i with
    | zero =>
      show (getAt ((w.write_one g gl c).write_frame rest).framebuffer.lines (w.line + 0)).map
          (fun l => l.content) = some c
      rw [write_frame_getAt_below rest _ _ hw2 (by show w.line + 0 < w.line + 1; omega)]
      show (getAt (w.framebuffer.set_line w.line g gl c).lines (w.line + 0)).map
          (fun l => l.content) = some c
      rw [Nat.add_zero]
      exact set_line_content_self _ _ _ _ _
    | succ i2 =>
      have ih := write_frame_content rest (w.write_one g gl c) hw2 i2
        (Nat.lt_of_succ_lt_succ hi)
      show (getAt ((w.write_one g gl c).write_frame rest).framebuffer.lines
          (w.line + (i2 + 1))).map (fun l => l.content) = _
      have harith : w.line + (i2 + 1) = (w.write_one g gl c).line + i2 := by
        show w.line + (i2 + 1) = w.line + 1 + i2
        omega
      rw [harith, ih]
      rfl

theorem write_frame_clean :
    ∀ (frame : List (Option Nat × Option Nat × String)) (w : Writer),
      (∀ i, i < frame.length →
        (getAt w.framebuffer.lines (w.line + i)).map (fun l => l.content)
          = (getAt frame i).map (fun it => it.2.2)) →
      (w.write_frame frame).framebuffer.lines = w.framebuffer.lines
  | [], _, _ => rfl
  | (g, gl, c) :: rest, w, h => by
    have h0 : (getAt w.framebuffer.lines w.line).map (fun l => l.content) = some c := by
      have := h 0 (by simp)
      rw [Nat.add_zero] at this
      exact this
    have hfix : (w.write_one g gl c).framebuffer.lines = w.framebuffer.lines :=
      set_line_fixpoint _ _ _ _ _ h0
    have ih := write_frame_clean rest (w.write_one g gl c) (by
      intro i hi
      show (getAt (w.write_one g gl c).framebuffer.lines ((w.line + 1) + i)).map
          (fun l => l.content) = _
      rw [hfix]
      have harith : w.line + 1 + i = w.line + (i + 1) := by omega
      rw [harith]
      exact h (i + 1) (by simpa using Nat.succ_lt_succ hi))
    show ((w.write_one g gl c).write_frame rest).framebuffer.lines = _
    rw [ih, hfix]

/-- C8: frame-diff round trip.  For every framebuffer: write one full frame
through the Writer, clear every changed flag (as the draw step does), then
write a second frame with identical content in the same order — afterwards no
row's changed flag is set. -/
theorem frame_diff_round_trip (fb : Framebuffer)
    (frame : List (Option Nat × Option Nat × String)) :
    ∀ l ∈ ((Writer.new
        ((((Writer.new fb).write_frame frame).framebuffer).clear_flags)).write_frame
          frame).framebuffer.lines,
      l.changed = false := by
  have hcontent1 : ∀ i, i < frame.length →
      (getAt ((Writer.new fb).write_frame frame).framebuffer.lines i).map (fun l => l.content)
        = (getAt frame i).map (fun it => it.2.2) := by
    intro i hi
    have hwf := write_frame_content frame (Writer.new fb) (by
      show 0 ≤ _
      omega) i hi
    have hline : (Writer.new fb).line = 0 := rfl
    rw [hline, Nat.zero_add] at hwf
    exact hwf
  have hclean : ((Writer.new
      ((((Writer.new fb).write_frame frame).framebuffer).clear_flags)).write_frame
        frame).framebuffer.lines
      = (((Writer.new fb).write_frame frame).framebuffer).clear_flags.lines := by
    refine write_frame_clean frame _ ?_
    intro i hi
    show (getAt ((((Writer.new fb).write_frame frame).framebuffer).clear_flags).lines
        (0 + i)).map (fun l => l.content) = _
    rw [Nat.zero_add]
    show (getAt (((Writer.new fb).write_frame frame).framebuffer.lines.map
        (fun l => { l with changed := false })) i).map (fun l => l.content) = _
    rw [getAt_map]
    rw [← hcontent1 i hi]
    cases getAt ((Writer.new fb).write_frame frame).framebuffer.lines i <;> rfl
  intro l hl
  rw [hclean] at hl
  rcases List.mem_map.mp hl with ⟨l0, _, rfl⟩
  rfl

/-- C8 witness: the round-trip theorem applied to the concrete one-line frame
on the empty framebuffer; the written row's flag is clear after the second
frame. -/
theorem frame_diff_round_trip_witness :
    (c8fb.lines.getD 0 default).changed = false :=
  frame_diff_round_trip Framebuffer.empty c8frame (c8fb.lines.getD 0 default) (by decide)

-- =====================
-- === scroll lemmas ===
-- =====================

theorem scroll_eq (L : Logger) (gid : Nat) (off : Int) (hgid : gid < L.groups.length) :
    L.scroll (Selector.byId gid) off = some { L with groups := modifyAt L.groups gid (fun g =>
      { g with state := { g.state with scroll := L.scroll_stored gid off } }) } := by
  simp [Logger.scroll, Logger.scroll_stored, Logger.scroll_new_val, Selector.resolve, hgid]

theorem scroll_step_spec (L : Logger) (gid : Nat) (off : Int) (hgid : gid < L.groups.length) :
    ∃ L2, L.scroll (Selector.byId gid) off = some L2
      ∧ L2.frame_buffer = L.frame_buffer
      ∧ L2.groups.length = L.groups.length
      ∧ L2.max_scroll gid = L.max_scroll gid
      ∧ L2.scroll_anchor gid = L.scroll_anchor gid
      ∧ L2.scroll_of gid = L.scroll_stored gid off := by
  obtain ⟨g, hg⟩ := getAt_lt_some L.groups gid hgid
  refine ⟨_, scroll_eq L gid off hgid, rfl, modifyAt_length _ _ _, ?_, rfl, ?_⟩
  · simp only [Logger.max_scroll, Logger.window_height, Logger.group_window]
    rw [getAt_modifyAt_self, hg]
    rfl
  · simp only [Logger.scroll_of]
    rw [getAt_modifyAt_self, hg]
    rfl

/-- C5: scroll clamping.  For a group drawn in the last frame whose tail
anchor and stored offset do not exceed `max = lines.len() - window_height`:
(1) over any sequence of `scroll` calls the stored offset never exceeds `max`
(it can never go below 0, the saturating subtraction being modelled by `Nat`
truncation); (2) a positive offset clamps to `max` and clears the override
back to tail-follow (`none`) exactly when the maximum is reached, a stored
offset being strictly below `max`; (3) a non-positive offset
saturating-subtracts, clamping at 0. -/
theorem scroll_stored_le (L2 : Logger) (gid : Nat) (off : Int) (A M : Nat)
    (hM : L2.max_scroll gid = M) (hA : L2.scroll_anchor gid = A)
    (hcur : (L2.scroll_of gid).getD A ≤ M) (hanchor : A ≤ M) :
    (L2.scroll_stored gid off).getD A ≤ M := by
  unfold Logger.scroll_stored Logger.scroll_new_val
  rw [hM, hA]
  split_ifs <;> simp only [Option.getD_some, Option.getD_none] <;> omega

theorem scroll_clamp_spec (L : Logger) (gid : Nat)
    (hgid : gid < L.groups.length)
    (hanchor : L.scroll_anchor gid ≤ L.max_scroll gid)
    (hstored : ∀ s, L.scroll_of gid = some s → s ≤ L.max_scroll gid) :
    (∀ offs : List Int, ∀ v,
        (L.scroll_many (Selector.byId gid) offs).scroll_of gid = some v →
          v ≤ L.max_scroll gid)
    ∧ (∀ off : Int, 0 < off → ∀ L2, L.scroll (Selector.byId gid) off = some L2 →
        (L2.scroll_of gid = none ↔
          L.max_scroll gid ≤ ((L.scroll_of gid).getD (L.scroll_anchor gid)) + off.toNat)
        ∧ (∀ v, L2.scroll_of gid = some v →
            v = min (((L.scroll_of gid).getD (L.scroll_anchor gid)) + off.toNat)
              (L.max_scroll gid) ∧ v < L.max_scroll gid))
    ∧ (∀ off : Int, off ≤ 0 → ∀ L2, L.scroll (Selector.byId gid) off = some L2 →
        ∀ v, L2.scroll_of gid = some v →
          v = ((L.scroll_of gid).getD (L.scroll_anchor gid)) - (-off).toNat) := by
  have inv : ∀ (offs : List Int) (L2 : Logger),
      L2.groups.length = L.groups.length →
      L2.max_scroll gid = L.max_scroll gid →
      L2.scroll_anchor gid = L.scroll_anchor gid →
      (L2.scroll_of gid).getD (L.scroll_anchor gid) ≤ L.max_scroll gid →
      ((L2.scroll_many (Selector.byId gid) offs).scroll_of gid).getD (L.scroll_anchor gid)
        ≤ L.max_scroll gid := by
    intro offs
    induction offs with
    | nil =>
      intro L2 _ _ _ h4
      exact h4
    | cons off offs ih =>
      intro L2 h1 h2 h3 h4
      obtain ⟨L3, heq, _, hlen, hmax, hanch, hso⟩ :=
        scroll_step_spec L2 gid off (h1 ▸ hgid)
      have hstep : L2.scroll_many (Selector.byId gid) (off :: offs)
          = L3.scroll_many (Selector.byId gid) offs := by
        simp [Logger.scroll_many, heq]
      rw [hstep]
      refine ih L3 (hlen.trans h1) (hmax.trans h2) (hanch.trans h3) ?_
      rw [hso]
      exact scroll_stored_le L2 gid off _ _ h2 h3 h4 hanchor
  have hbase : (L.scroll_of gid).getD (L.scroll_anchor gid) ≤ L.max_scroll gid := by
    cases h : L.scroll_of gid with
    | none => simpa using hanchor
    | some s => simpa using hstored s h
  refine ⟨?_, ?_, ?_⟩
  · intro offs v hv
    have hfin := inv offs L rfl rfl rfl hbase
    rw [hv] at hfin
    simpa using hfin
  · intro off hoff L2 heq
    obtain ⟨L3, heq3, _, _, _, _, hso⟩ := scroll_step_spec L gid off hgid
    have hL : L2 = L3 := Option.some.inj (heq.symm.trans heq3)
    subst hL
    have hnv : L.scroll_new_val gid off
        = min (((L.scroll_of gid).getD (L.scroll_anchor gid)) + off.toNat)
          (L.max_scroll gid) := by
      unfold Logger.scroll_new_val
      rw [if_pos hoff]
    rw [hso]
    unfold Logger.scroll_stored
    rw [hnv]
    constructor
    · split_ifs with h
      · simp only [reduceCtorEq, false_iff]
        omega
      · simp only [true_iff]
        omega
    · intro v
      split_ifs with h
      · intro hv
        have hv2 := Option.some.inj hv
        constructor
        · omega
        · omega
      · intro hv
        cases hv
  · intro off hoff L2 heq
    obtain ⟨L3, heq3, _, _, _, _, hso⟩ := scroll_step_spec L gid off hgid
    have hL : L2 = L3 := Option.some.inj (heq.symm.trans heq3)
    subst hL
    have hnv : L.scroll_new_val gid off
        = ((L.scroll_of gid).getD (L.scroll_anchor gid)) - (-off).toNat := by
      unfold Logger.scroll_new_val
      rw [if_neg (by omega)]
    rw [hso]
    unfold Logger.scroll_stored
    rw [hnv]
    intro v
    split_ifs with h
    · intro hv
      exact (Option.some.inj hv).symm
    · intro hv
      cases hv

/-- C5 witness: on the concrete logger, scrolling down by 5 from the anchor
reaches the maximum and the override is cleared back to tail-follow. -/
theorem scroll_clamp_spec_witness :
    ((c5L.scroll (Selector.byId 0) 5).getD c5L).scroll_of 0 = none :=
  ((scroll_clamp_spec c5L 0 (by decide) (by decide)
      (fun s h => Option.noConfusion h)).2.1 5 (by decide)
    ((c5L.scroll (Selector.byId 0) 5).getD c5L) rfl).1.mpr (by decide)

-- ==============================
-- === shift_selection lemmas ===
-- ==============================

theorem mem_nonempty_idxs_lt (L : Logger) (i : Nat) (h : i ∈ L.nonempty_idxs) :
    i < L.groups.length := by
  unfold Logger.nonempty_idxs at h
  exact List.mem_range.mp (List.mem_filter.mp h).1

theorem nonempty_idxs_nodup (L : Logger) : L.nonempty_idxs.Nodup :=
  (List.nodup_range _).filter _

theorem set_selected_length (L : Logger) (i : Nat) (b : Bool) :
    (L.set_selected i b).groups.length = L.groups.length :=
  modifyAt_length _ _ _

theorem selected_at_set_self (L : Logger) (i : Nat) (b : Bool) (h : i < L.groups.length) :
    (L.set_selected i b).selected_at i = b := by
  obtain ⟨g, hg⟩ := getAt_lt_some L.groups i h
  unfold Logger.set_selected Logger.selected_at
  rw [getAt_modifyAt_self, hg]
  rfl

theorem selected_at_set_other (L : Logger) (i j : Nat) (b : Bool) (h : i ≠ j) :
    (L.set_selected i b).selected_at j = L.selected_at j := by
  unfold Logger.set_selected Logger.selected_at
  rw [getAt_modifyAt_other _ _ _ _ h]

theorem write_flags_untouched : ∀ (is2 : List Nat) (bs : List Bool) (L : Logger) (j : Nat),
    j ∉ is2 → (L.write_flags is2 bs).selected_at j = L.selected_at j
  | [], _, _, _, _ => rfl
  | _ :: _, [], _, _, _ => rfl
  | i :: is2, b :: bs, L, j, h => by
    have hj1 : j ∉ is2 := fun hc => h (List.mem_cons_of_mem _ hc)
    have hji : i ≠ j := fun e => h (e ▸ List.mem_cons_self i is2)
    show ((L.set_selected i b).write_flags is2 bs).selected_at j = _
    rw [write_flags_untouched is2 bs _ j hj1, selected_at_set_other L i j b hji]

theorem write_flags_length : ∀ (is2 : List Nat) (bs : List Bool) (L : Logger),
    (L.write_flags is2 bs).groups.length = L.groups.length
  | [], _, _ => rfl
  | _ :: _, [], _ => rfl
  | i :: is2, b :: bs, L => by
    show ((L.set_selected i b).write_flags is2 bs).groups.length = _
    rw [write_flags_length is2 bs _, set_selected_length]

theorem write_flags_map : ∀ (is2 : List Nat) (bs : List Bool) (L : Logger),
    is2.Nodup → (∀ i ∈ is2, i < L.groups.length) → is2.length = bs.length →
    is2.map (fun i => (L.write_flags is2 bs).selected_at i) = bs
  | [], [], _, _, _, _ => rfl
  | [], _ :: _, _, _, _, hl => by cases hl
  | _ :: _, [], _, _, _, hl => by cases hl
  | i :: is2, b :: bs, L, hnd, hbound, hl => by
    rcases List.pairwise_cons.mp hnd with ⟨hni, hnd2⟩
    have hnotmem : i ∉ is2 := fun hc => (hni i hc) rfl
    have hlt : i < L.groups.length := hbound i (List.mem_cons_self i is2)
    have hhead : ((L.set_selected i b).write_flags is2 bs).selected_at i = b := by
      rw [write_flags_untouched is2 bs _ i hnotmem]
      exact selected_at_set_self L i b hlt
    have htail := write_flags_map is2 bs (L.set_selected i b) hnd2
      (by
        intro x hx
        rw [set_selected_length]
        exact hbound x (List.mem_cons_of_mem i hx))
      (Nat.succ.inj hl)
    have hgoal : (i :: is2).map
        (fun x => ((L.set_selected i b).write_flags is2 bs).selected_at x) = b :: bs := by
      simp only [List.map_cons]
      rw [hhead, htail]
    exact hgoal

/-- C1 (amended): with at least one non-empty group selected, `shift_selection`
rotates the selection bitset over the ordered non-empty groups (taken in shift
direction) by one position WITH wrap: each group inherits its predecessor's
flag and the flag falling off the boundary reappears at the first position
(`groups[0].selected = true` when `prev_selected`); in particular, when only
the last non-empty group is selected, `shift_selection(+1)` moves the
selection to the FIRST non-empty group rather than dropping it. -/
theorem shift_selection_rotates (L : Logger) (shift : Int)
    (hne : L.nonempty_idxs ≠ [])
    (hsel : L.nonempty_idxs.any (fun i => L.selected_at i) = true) :
    (if shift < 0 then L.nonempty_idxs.reverse else L.nonempty_idxs).map
        (fun i => (L.shift_selection shift).selected_at i)
      = ((if shift < 0 then L.nonempty_idxs.reverse else L.nonempty_idxs).map
            (fun i => L.selected_at i)).getLastD false
        :: ((if shift < 0 then L.nonempty_idxs.reverse else L.nonempty_idxs).map
            (fun i => L.selected_at i)).dropLast := by
  have hempty : L.nonempty_idxs.isEmpty = false := by
    cases h : L.nonempty_idxs with
    | nil => exact absurd h hne
    | cons a l => rfl
  have hstep : L.shift_selection shift
      = L.write_flags (if shift < 0 then L.nonempty_idxs.reverse else L.nonempty_idxs)
          (((if shift < 0 then L.nonempty_idxs.reverse else L.nonempty_idxs).map
              (fun i => L.selected_at i)).getLastD false
            :: ((if shift < 0 then L.nonempty_idxs.reverse else L.nonempty_idxs).map
              (fun i => L.selected_at i)).dropLast) := by
    unfold Logger.shift_selection
    rw [hempty, hsel]
    simp
  have hordne : (if shift < 0 then L.nonempty_idxs.reverse else L.nonempty_idxs) ≠ [] := by
    split_ifs
    · simpa using hne
    · exact hne
  have hnodup : (if shift < 0 then L.nonempty_idxs.reverse else L.nonempty_idxs).Nodup := by
    split_ifs
    · exact (List.nodup_reverse).mpr (nonempty_idxs_nodup L)
    · exact nonempty_idxs_nodup L
  have hbound : ∀ i ∈ (if shift < 0 then L.nonempty_idxs.reverse else L.nonempty_idxs),
      i < L.groups.length := by
    intro i hi
    apply mem_nonempty_idxs_lt
    rcases lt_or_le shift 0 with h | h
    · rw [if_pos h] at hi
      exact List.mem_reverse.mp hi
    · rw [if_neg (by omega)] at hi
      exact hi
  have hlen : (if shift < 0 then L.nonempty_idxs.reverse else L.nonempty_idxs).length
      = (((if shift < 0 then L.nonempty_idxs.reverse else L.nonempty_idxs).map
            (fun i => L.selected_at i)).getLastD false
          :: ((if shift < 0 then L.nonempty_idxs.reverse else L.nonempty_idxs).map
            (fun i => L.selected_at i)).dropLast).length := by
    rw [List.length_cons, List.length_dropLast, List.length_map]
    have := List.length_pos.mpr hordne
    omega
  rw [hstep]
  exact write_flags_map _ _ L hnodup hbound hlen

/-- C1 counterexample: with two non-empty groups and only the LAST selected,
`shift_selection(+1)` does not leave the selection empty — it wraps to the
first group. -/
theorem shift_selection_counterexample :
    c1Logger.nonempty_idxs = [0, 1]
    ∧ c1Logger.selected_at 0 = false
    ∧ c1Logger.selected_at 1 = true
    ∧ (c1Logger.shift_selection 1).selected_at 0 = true
    ∧ (c1Logger.shift_selection 1).selected_at 1 = false := by
  refine ⟨rfl, rfl, rfl, rfl, rfl⟩

-- ==========================================
-- === Association list and HashTree lemmas ===
-- ==========================================

theorem lookupA_insertA_self [DecidableEq α] : ∀ (l : List (α × β)) (k : α) (v : β),
    lookupA (insertA l k v) k = some v
  | [], k, v => by simp [insertA, lookupA]
  | (k2, v2) :: rest, k, v => by
    by_cases h : k2 = k
    · subst h
      simp [insertA, lookupA]
    · simp only [insertA, if_neg h, lookupA]
      exact lookupA_insertA_self rest k v

theorem lookupA_insertA_other [DecidableEq α] : ∀ (l : List (α × β)) (k k2 : α) (v : β),
    k2 ≠ k → lookupA (insertA l k v) k2 = lookupA l k2
  | [], k, k2, v, h => by
    simp only [insertA, lookupA]
    rw [if_neg (fun e => h e.symm)]
  | (k3, v3) :: rest, k, k2, v, h => by
    by_cases h3 : k3 = k
    · subst h3
      simp only [insertA, if_pos rfl, lookupA]
      rw [if_neg (fun e => h e.symm), if_neg (fun e => h e.symm)]
    · simp only [insertA, if_neg h3, lookupA]
      by_cases h32 : k3 = k2
      · rw [if_pos h32, if_pos h32]
      · rw [if_neg h32, if_neg h32]
        exact lookupA_insertA_other rest k k2 v h

theorem insertA_lookup_self [DecidableEq α] : ∀ (l : List (α × β)) (k : α) (v : β),
    lookupA l k = some v → insertA l k v = l
  | [], k, v, h => by cases h
  | (k2, v2) :: rest, k, v, h => by
    by_cases hk : k2 = k
    · have hv : v2 = v := by
        simp only [lookupA, if_pos hk] at h
        exact Option.some.inj h
      simp only [insertA, if_pos hk, hv]
    · simp only [lookupA, if_neg hk] at h
      simp only [insertA, if_neg hk]
      rw [insertA_lookup_self rest k v h]

theorem get_empty [DecidableEq K] : ∀ (p : List K),
    HashTree.get p (HashTree.empty : HashTree K V) = none
  | [] => rfl
  | _ :: _ => rfl

theorem get_or_insert_found [DecidableEq K] :
    ∀ (p : List K) (t : HashTree K V) (f : σ → V × σ) (s : σ) (v : V),
      HashTree.get p t = some v → HashTree.get_or_insert_with p t f s = (v, t, s)
  | [], .node val ch, f, s, v, h => by
    have hv : val = some v := h
    subst hv
    rfl
  | k :: ks, .node val ch, f, s, v, h => by
    cases hc : lookupA ch k with
    | none =>
      exfalso
      have h2 : HashTree.get (k :: ks) (HashTree.node val ch) = none := by
        simp only [HashTree.get, HashTree.children, hc]
      rw [h2] at h
      cases h
    | some c =>
      have h2 : HashTree.get ks c = some v := by
        have h3 : HashTree.get (k :: ks) (HashTree.node val ch)
            = HashTree.get ks c := by
          simp only [HashTree.get, HashTree.children, hc]
        rw [h3] at h
        exact h
      have ih := get_or_insert_found ks c f s v h2
      simp only [HashTree.get_or_insert_with, HashTree.children, hc, Option.getD_some, ih]
      rw [insertA_lookup_self ch k c hc]

theorem get_or_insert_fresh [DecidableEq K] :
    ∀ (p : List K) (t : HashTree K V) (f : σ → V × σ) (s : σ),
      HashTree.get p t = none →
      (HashTree.get_or_insert_with p t f s).1 = (f s).1
      ∧ (HashTree.get_or_insert_with p t f s).2.2 = (f s).2
  | [], .node val ch, f, s, h => by
    have hv : val = none := h
    subst hv
    exact ⟨rfl, rfl⟩
  | k :: ks, .node val ch, f, s, h => by
    cases hc : lookupA ch k with
    | none =>
      have hch : HashTree.get ks (HashTree.empty : HashTree K V) = none := get_empty ks
      have ih := get_or_insert_fresh ks (HashTree.empty : HashTree K V) f s hch
      simp only [HashTree.get_or_insert_with, HashTree.children, hc, Option.getD_none,
        HashTree.empty] at *
      exact ih
    | some c =>
      have h2 : HashTree.get ks c = none := by
        have h3 : HashTree.get (k :: ks) (HashTree.node val ch) = HashTree.get ks c := by
          simp only [HashTree.get, HashTree.children, hc]
        rw [h3] at h
        exact h
      have ih := get_or_insert_fresh ks c f s h2
      simp only [HashTree.get_or_insert_with, HashTree.children, hc, Option.getD_some]
      exact ih

theorem get_after_insert_self [DecidableEq K] :
    ∀ (p : List K) (t : HashTree K V) (f : σ → V × σ) (s : σ),
      HashTree.get p (HashTree.get_or_insert_with p t f s).2.1
        = some (HashTree.get_or_insert_with p t f s).1
  | [], .node val ch, f, s => by
    cases val with
    | none => rfl
    | some x => rfl
  | k :: ks, .node val ch, f, s => by
    have ih := get_after_insert_self ks ((lookupA ch k).getD HashTree.empty) f s
    simp only [HashTree.get_or_insert_with, HashTree.children, HashTree.get]
    rw [lookupA_insertA_self]
    exact ih

theorem get_after_insert_other [DecidableEq K] :
    ∀ (p q : List K) (t : HashTree K V) (f : σ → V × σ) (s : σ), q ≠ p →
      HashTree.get q (HashTree.get_or_insert_with p t f s).2.1 = HashTree.get q t
  | [], q, .node val ch, f, s, hq => by
    cases val with
    | some x => rfl
    | none =>
      cases q with
      | nil => exact absurd rfl hq
      | cons k2 qs => rfl
  | k :: ks, q, .node val ch, f, s, hq => by
    cases q with
    | nil => rfl
    | cons k2 qs =>
      by_cases hk : k2 = k
      · subst hk
        have hqs : qs ≠ ks := fun e => hq (by rw [e])
        have ih := get_after_insert_other ks qs ((lookupA ch k2).getD HashTree.empty) f s hqs
        simp only [HashTree.get_or_insert_with, HashTree.children, HashTree.get,
          lookupA_insertA_self]
        rw [ih]
        cases hc : lookupA ch k2 with
        | none => simp only [hc, Option.getD_none, get_empty]
        | some c => simp only [hc, Option.getD_some]
      · simp only [HashTree.get_or_insert_with, HashTree.children, HashTree.get]
        rw [lookupA_insertA_other _ _ _ _ hk]

-- =============================
-- === create_group lemmas ===
-- =============================

theorem create_group_found (L : Logger) (p : List String) (i : Nat)
    (h : HashTree.get p L.path_to_group_id = some i) :
    L.create_group p = (i, L) := by
  simp only [Logger.create_group, get_or_insert_found p _ _ _ i h]

theorem create_group_get_self (L : Logger) (p : List String) :
    HashTree.get p (L.create_group p).2.path_to_group_id = some (L.create_group p).1 := by
  simp only [Logger.create_group]
  exact get_after_insert_self p _ _ _

theorem create_group_get_other (L : Logger) (p q : List String) (hq : q ≠ p) :
    HashTree.get q (L.create_group p).2.path_to_group_id
      = HashTree.get q L.path_to_group_id := by
  simp only [Logger.create_group]
  exact get_after_insert_other p q _ _ _ hq

theorem create_group_fresh (L : Logger) (p : List String)
    (h : HashTree.get p L.path_to_group_id = none) :
    (L.create_group p).1 = L.groups.length
    ∧ (L.create_group p).2.groups = L.groups ++
        [{ Group.new L.groups.length with state :=
            { (Group.new L.groups.length).state with
                header := String.intercalate "::" p } }] := by
  have hfr := get_or_insert_fresh p L.path_to_group_id
    (fun gs => (gs.length, gs ++ [{ Group.new gs.length with state :=
      { (Group.new gs.length).state with header := String.intercalate "::" p } }]))
    L.groups h
  simp only [Logger.create_group]
  exact hfr

theorem tree_ok_init : Logger.init.tree_ok := by
  constructor
  · intro p v h
    have h2 : HashTree.get p (HashTree.empty : HashTree String Nat) = some v := h
    rw [get_empty] at h2
    cases h2
  · intro p q v h _
    have h2 : HashTree.get p (HashTree.empty : HashTree String Nat) = some v := h
    rw [get_empty] at h2
    cases h2

/-- C6: `create_group` is idempotent (a second call with the same path
returns the same GroupId and leaves the logger unchanged), injective over
distinct paths (under the path-index invariant `tree_ok`, which holds for the
fresh logger), and on first creation appends a group whose header is the path
segments joined by the `::` separator, with GroupId `groups.len()`. -/
theorem create_group_spec (L : Logger) (p q : List String)
    (hok : L.tree_ok) (hpq : p ≠ q) :
    ((L.create_group p).2.create_group p = L.create_group p)
    ∧ (((L.create_group p).2.create_group q).1 ≠ (L.create_group p).1)
    ∧ (HashTree.get p L.path_to_group_id = none →
        (L.create_group p).1 = L.groups.length
        ∧ (L.create_group p).2.groups = L.groups ++
            [{ Group.new L.groups.length with state :=
                { (Group.new L.groups.length).state with
                    header := String.intercalate "::" p } }]) := by
  refine ⟨?_, ?_, create_group_fresh L p⟩
  · have hfound := create_group_found ((L.create_group p).2) p ((L.create_group p).1)
      (create_group_get_self L p)
    rw [hfound]
  · have hq2 : HashTree.get q (L.create_group p).2.path_to_group_id
        = HashTree.get q L.path_to_group_id :=
      create_group_get_other L p q (fun e => hpq e.symm)
    cases hp : HashTree.get p L.path_to_group_id with
    | some i =>
      have h1 : L.create_group p = (i, L) := create_group_found L p i hp
      cases hq : HashTree.get q L.path_to_group_id with
      | some j =>
        have h2 : ((L.create_group p).2).create_group q = (j, (L.create_group p).2) := by
          apply create_group_found
          rw [hq2, hq]
        rw [h2, h1]
        intro e
        have e2 : j = i := e
        exact hpq (hok.2 p q i hp (by rw [hq, e2]))
      | none =>
        have hilt : i < L.groups.length := hok.1 p i hp
        have h2 := create_group_fresh ((L.create_group p).2) q (by rw [hq2, hq])
        rw [h2.1, h1]
        have hg : ((i, L).2).groups.length = L.groups.length := rfl
        rw [hg]
        omega
    | none =>
      have hfr := create_group_fresh L p hp
      have hlen : (L.create_group p).2.groups.length = L.groups.length + 1 := by
        rw [hfr.2]
        simp
      cases hq : HashTree.get q L.path_to_group_id with
      | some j =>
        have hjlt : j < L.groups.length := hok.1 q j hq
        have h2 : ((L.create_group p).2).create_group q = (j, (L.create_group p).2) := by
          apply create_group_found
          rw [hq2, hq]
        rw [h2, hfr.1]
        omega
      | none =>
        have h2 := create_group_fresh ((L.create_group p).2) q (by rw [hq2, hq])
        rw [h2.1, hfr.1, hlen]
        omega

/-- C6 witness: on the fresh logger, creating two distinct paths yields
distinct GroupIds. -/
theorem create_group_spec_witness :
    ((Logger.init.create_group ["a"]).2.create_group ["b"]).1
      ≠ (Logger.init.create_group ["a"]).1 :=
  (create_group_spec Logger.init ["a"] ["b"] tree_ok_init (by decide)).2.1

/-- C1 witness: the amended rotation theorem applied at the concrete
two-group logger with shift +1. -/
theorem shift_selection_rotates_witness :
    (if (1 : Int) < 0 then c1Logger.nonempty_idxs.reverse else c1Logger.nonempty_idxs).map
        (fun i => (c1Logger.shift_selection 1).selected_at i)
      = ((if (1 : Int) < 0 then c1Logger.nonempty_idxs.reverse else c1Logger.nonempty_idxs).map
            (fun i => c1Logger.selected_at i)).getLastD false
        :: ((if (1 : Int) < 0 then c1Logger.nonempty_idxs.reverse else c1Logger.nonempty_idxs).map
            (fun i => c1Logger.selected_at i)).dropLast :=
  shift_selection_rotates c1Logger 1 (by decide) (by decide)

-- ==================================
-- === LineId counter step lemmas ===
-- ==================================

theorem write_flags_counter : ∀ (is2 : List Nat) (bs : List Bool) (L : Logger),
    (L.write_flags is2 bs).next_line_id = L.next_line_id
  | [], _, _ => rfl
  | _ :: _, [], _ => rfl
  | i :: is2, b :: bs, L => write_flags_counter is2 bs (L.set_selected i b)

theorem shift_selection_counter (L : Logger) (s : Int) :
    (L.shift_selection s).next_line_id = L.next_line_id := by
  unfold Logger.shift_selection
  split_ifs <;> first
    | rfl
    | exact write_flags_counter _ _ _

theorem push_line_next (L : Logger) (sel : Selector) (lg : Log) (t : Nat) (L2 : Logger)
    (h : L.push_line sel lg t = some L2) : L2.next_line_id = L.next_line_id + 1 := by
  unfold Logger.push_line at h
  cases hres : sel.resolve L with
  | none =>
    rw [hres] at h
    cases h
  | some gid =>
    rw [hres] at h
    rw [← Option.some.inj h]

theorem step_next_line_id (L : Logger) (op : Op) :
    (L.step op).next_line_id
      = L.next_line_id + (match op with
        | .pushLine sel lg t => if (L.push_line sel lg t).isSome then 1 else 0
        | _ => 0) := by
  cases op with
  | createGroup p => rfl
  | pushLine sel lg t =>
    cases hpl : L.push_line sel lg t with
    | none => simp [Logger.step, hpl]
    | some L2 =>
      have h2 := push_line_next L sel lg t L2 hpl
      simp [Logger.step, hpl, h2]
  | shiftSelection s =>
    show (L.shift_selection s).next_line_id = L.next_line_id + 0
    rw [shift_selection_counter, Nat.add_zero]
  | shiftHistory s => rfl
  | scroll sel off =>
    show ((L.scroll sel off).getD L).next_line_id = L.next_line_id + 0
    unfold Logger.scroll
    cases hres : sel.resolve L with
    | none => rfl
    | some gid => rfl
  | setHeader sel s =>
    show ((L.with_group sel _).getD L).next_line_id = L.next_line_id + 0
    unfold Logger.with_group
    cases hres : sel.resolve L with
    | none => rfl
    | some gid => rfl
  | setFooter sel s =>
    show ((L.with_group sel _).getD L).next_line_id = L.next_line_id + 0
    unfold Logger.with_group
    cases hres : sel.resolve L with
    | none => rfl
    | some gid => rfl
  | setCollapsed sel b =>
    show ((L.with_group sel _).getD L).next_line_id = L.next_line_id + 0
    unfold Logger.with_group
    cases hres : sel.resolve L with
    | none => rfl
    | some gid => rfl

theorem push_line_ids_aux : ∀ (ops : List Op) (L : Logger),
    pushed_ids L ops = List.range' L.next_line_id (pushed_ids L ops).length
    ∧ (L.run ops).next_line_id = L.next_line_id + (pushed_ids L ops).length
  | [], L => ⟨rfl, rfl⟩
  | op :: ops, L => by
    obtain ⟨ih1, ih2⟩ := push_line_ids_aux ops (L.step op)
    have hstep : L.run (op :: ops) = (L.step op).run ops := rfl
    have hcnt := step_next_line_id L op
    cases op with
    | pushLine sel lg t =>
      have hcnt2 : (L.step (Op.pushLine sel lg t)).next_line_id
          = L.next_line_id + (if (L.push_line sel lg t).isSome then 1 else 0) := hcnt
      cases hpl : L.push_line sel lg t with
      | none =>
        rw [hpl] at hcnt2
        have hids : pushed_ids L (Op.pushLine sel lg t :: ops)
            = pushed_ids (L.step (Op.pushLine sel lg t)) ops := by
          simp only [pushed_ids, hpl]
        have hc0 : (L.step (Op.pushLine sel lg t)).next_line_id = L.next_line_id := hcnt2
        refine ⟨?_, ?_⟩
        · rw [hc0] at ih1
          rw [hids]
          exact ih1
        · rw [hstep, ih2, hc0, hids]
      | some L2 =>
        rw [hpl] at hcnt2
        have hids : pushed_ids L (Op.pushLine sel lg t :: ops)
            = L.next_line_id :: pushed_ids (L.step (Op.pushLine sel lg t)) ops := by
          simp only [pushed_ids, hpl]
        have hc1 : (L.step (Op.pushLine sel lg t)).next_line_id
            = L.next_line_id + 1 := hcnt2
        refine ⟨?_, ?_⟩
        · rw [hc1] at ih1
          rw [hids, List.length_cons, List.range'_succ]
          exact congrArg (L.next_line_id :: ·) ih1
        · rw [hstep, ih2, hc1, hids, List.length_cons]
          omega
    | createGroup p =>
      have hids : pushed_ids L (Op.createGroup p :: ops)
          = pushed_ids (L.step (Op.createGroup p)) ops := rfl
      have hc0 : (L.step (Op.createGroup p)).next_line_id = L.next_line_id := hcnt
      rw [hc0] at ih1 ih2
      exact ⟨by rw [hids]; exact ih1, by rw [hstep, hids]; exact ih2⟩
    | shiftSelection s =>
      have hids : pushed_ids L (Op.shiftSelection s :: ops)
          = pushed_ids (L.step (Op.shiftSelection s)) ops := rfl
      have hc0 : (L.step (Op.shiftSelection s)).next_line_id = L.next_line_id := hcnt
      rw [hc0] at ih1 ih2
      exact ⟨by rw [hids]; exact ih1, by rw [hstep, hids]; exact ih2⟩
    | shiftHistory s =>
      have hids : pushed_ids L (Op.shiftHistory s :: ops)
          = pushed_ids (L.step (Op.shiftHistory s)) ops := rfl
      have hc0 : (L.step (Op.shiftHistory s)).next_line_id = L.next_line_id := hcnt
      rw [hc0] at ih1 ih2
      exact ⟨by rw [hids]; exact ih1, by rw [hstep, hids]; exact ih2⟩
    | scroll sel off =>
      have hids : pushed_ids L (Op.scroll sel off :: ops)
          = pushed_ids (L.step (Op.scroll sel off)) ops := rfl
      have hc0 : (L.step (Op.scroll sel off)).next_line_id = L.next_line_id := hcnt
      rw [hc0] at ih1 ih2
      exact ⟨by rw [hids]; exact ih1, by rw [hstep, hids]; exact ih2⟩
    | setHeader sel s =>
      have hids : pushed_ids L (Op.setHeader sel s :: ops)
          = pushed_ids (L.step (Op.setHeader sel s)) ops := rfl
      have hc0 : (L.step (Op.setHeader sel s)).next_line_id = L.next_line_id := hcnt
      rw [hc0] at ih1 ih2
      exact ⟨by rw [hids]; exact ih1, by rw [hstep, hids]; exact ih2⟩
    | setFooter sel s =>
      have hids : pushed_ids L (Op.setFooter sel s :: ops)
          = pushed_ids (L.step (Op.setFooter sel s)) ops := rfl
      have hc0 : (L.step (Op.setFooter sel s)).next_line_id = L.next_line_id := hcnt
      rw [hc0] at ih1 ih2
      exact ⟨by rw [hids]; exact ih1, by rw [hstep, hids]; exact ih2⟩
    | setCollapsed sel b =>
      have hids : pushed_ids L (Op.setCollapsed sel b :: ops)
          = pushed_ids (L.step (Op.setCollapsed sel b)) ops := rfl
      have hc0 : (L.step (Op.setCollapsed sel b)).next_line_id = L.next_line_id := hcnt
      rw [hc0] at ih1 ih2
      exact ⟨by rw [hids]; exact ih1, by rw [hstep, hids]; exact ih2⟩

/-- C7: across any sequence of serialized Logger operations, the LineIds
assigned by the successful `push_line` calls form the contiguous range
starting at the initial counter (strictly increasing, unique, no gaps: the
k-th successful push from a fresh logger gets LineId k-1, i.e. the ids are
`[0, 1, ..., n-1]`), and no operation ever decrements the counter. -/
theorem push_line_ids_spec :
    (∀ (ops : List Op) (L : Logger),
        pushed_ids L ops = List.range' L.next_line_id (pushed_ids L ops).length
        ∧ (L.run ops).next_line_id = L.next_line_id + (pushed_ids L ops).length)
    ∧ (∀ ops : List Op,
        pushed_ids Logger.init ops = List.range (pushed_ids Logger.init ops).length
        ∧ List.Pairwise (· < ·) (pushed_ids Logger.init ops))
    ∧ (∀ (L : Logger) (op : Op), L.next_line_id ≤ (L.step op).next_line_id) := by
  refine ⟨push_line_ids_aux, ?_, ?_⟩
  · intro ops
    have h := (push_line_ids_aux ops Logger.init).1
    have hinit : Logger.init.next_line_id = 0 := rfl
    rw [hinit] at h
    have hrange : pushed_ids Logger.init ops
        = List.range (pushed_ids Logger.init ops).length := by
      rw [h, List.range_eq_range', List.length_range']
    refine ⟨hrange, ?_⟩
    rw [hrange]
    exact List.pairwise_lt_range _
  · intro L op
    have h := step_next_line_id L op
    cases op with
    | pushLine sel lg t =>
      have h2 : (L.step (Op.pushLine sel lg t)).next_line_id
          = L.next_line_id + (if (L.push_line sel lg t).isSome then 1 else 0) := h
      rw [h2]
      split_ifs <;> omega
    | createGroup p =>
      have h2 : (L.step (Op.createGroup p)).next_line_id = L.next_line_id := h
      omega
    | shiftSelection s =>
      have h2 : (L.step (Op.shiftSelection s)).next_line_id = L.next_line_id := h
      omega
    | shiftHistory s =>
      have h2 : (L.step (Op.shiftHistory s)).next_line_id = L.next_line_id := h
      omega
    | scroll sel off =>
      have h2 : (L.step (Op.scroll sel off)).next_line_id = L.next_line_id := h
      omega
    | setHeader sel s =>
      have h2 : (L.step (Op.setHeader sel s)).next_line_id = L.next_line_id := h
      omega
    | setFooter sel s =>
      have h2 : (L.step (Op.setFooter sel s)).next_line_id = L.next_line_id := h
      omega
    | setCollapsed sel b =>
      have h2 : (L.step (Op.setCollapsed sel b)).next_line_id = L.next_line_id := h
      omega

-- ==========================
-- === push_line theorems ===
-- ==========================

/-- C10: `push_line` fails exactly when its selector does not resolve (a path
never created, or a GroupId not below the number of groups); on failure the
operational step leaves the logger unchanged (`?` returns before any
mutation); on success (under the path-index invariant `tree_ok`) it appends
exactly one line (timestamped with the pre-call counter) to the resolved
group, exactly one `(GroupId, StatusTag)` pair to the history, advances the
LineId counter by exactly one, and touches nothing else. -/
theorem push_line_spec (L : Logger) (sel : Selector) (lg : Log) (t : Nat)
    (htree : L.tree_ok) :
    (L.push_line sel lg t = none ↔
        (match sel with
         | .byId i => ¬ i < L.groups.length
         | .byPath p => HashTree.get p L.path_to_group_id = none))
    ∧ (∀ gid, sel.resolve L = some gid → ∀ L2, L.push_line sel lg t = some L2 →
        gid < L.groups.length
        ∧ L2.next_line_id = L.next_line_id + 1
        ∧ L2.history = L.history ++ [(gid, lg.status.tag)]
        ∧ L2.groups.length = L.groups.length
        ∧ getAt L2.groups gid = (getAt L.groups gid).map (fun g =>
            { g with state := { g.state with lines := g.state.lines
                ++ [{ log := lg, timestamp := L.next_line_id, time := t }] } })
        ∧ (∀ j, j ≠ gid → getAt L2.groups j = getAt L.groups j)
        ∧ L2.next_line = L.next_line
        ∧ L2.path_to_group_id = L.path_to_group_id
        ∧ L2.frame_buffer = L.frame_buffer
        ∧ L2.debug_lines = L.debug_lines)
    ∧ (L.push_line sel lg t = none → L.step (Op.pushLine sel lg t) = L) := by
  refine ⟨?_, ?_, ?_⟩
  · cases sel with
    | byId i =>
      unfold Logger.push_line Selector.resolve
      by_cases h : i < L.groups.length
      · simp [h]
      · simp [h]
    | byPath p =>
      unfold Logger.push_line Selector.resolve
      cases h : HashTree.get p L.path_to_group_id with
      | none => simp [h]
      | some gid => simp [h]
  · intro gid hres L2 hpl
    have hgid : gid < L.groups.length := by
      cases sel with
      | byId i =>
        simp only [Selector.resolve] at hres
        by_cases h : i < L.groups.length
        · rw [if_pos h] at hres
          rw [← Option.some.inj hres]
          exact h
        · rw [if_neg h] at hres
          cases hres
      | byPath p => exact htree.1 p gid hres
    unfold Logger.push_line at hpl
    rw [hres] at hpl
    have hL2 := (Option.some.inj hpl).symm
    subst hL2
    refine ⟨hgid, rfl, rfl, modifyAt_length _ _ _, ?_, ?_, rfl, rfl, rfl, rfl⟩
    · show getAt (modifyAt L.groups gid _) gid = _
      rw [getAt_modifyAt_self]
    · intro j hj
      show getAt (modifyAt L.groups gid _) j = _
      rw [getAt_modifyAt_other _ _ _ _ (fun e => hj e.symm)]
  · intro h
    show (L.push_line sel lg t).getD L = L
    rw [h]
    rfl

theorem tree_ok_of_empty (L : Logger) (h : L.path_to_group_id = HashTree.empty) :
    L.tree_ok := by
  constructor
  · intro p v hv
    rw [h, get_empty] at hv
    cases hv
  · intro p q v hv _
    rw [h, get_empty] at hv
    cases hv

/-- C10 witness: pushing to group 0 of the concrete logger appends exactly
one history entry with the log's status tag. -/
theorem push_line_spec_witness :
    c10L2.history = c5L.history ++ [(0, StatusTag.success)] :=
  ((push_line_spec c5L (Selector.byId 0) c10log 3 (tree_ok_of_empty c5L rfl)).2.1 0 rfl
    c10L2 rfl).2.2.1

end Lmux
